import Mathlib

/-!
Verification of the World-Bank CSV report tool (`src/index.ts`).

The TypeScript source is shallowly embedded below.  Modelling conventions:

* JS numbers are idealised as exact rationals; `NaN` is modelled explicitly,
  so a JS number is `JNum := Option ℚ` with `none` playing the role of `NaN`
  (non-finite parse results such as `Infinity` are also mapped to `NaN`).
  Arithmetic propagates `NaN`; every comparison involving `NaN` is `false`,
  exactly as in JS.
* An indicator's `values` object (`{ [key: number]: string }`) is embedded as
  the list of its property assignments in program order.  A property key is
  the result of `parseInt`, hence an `Option Int` (`none` models the `NaN`
  key).  Property lookup returns the value of the last assignment to the key
  (`none` models `undefined`).  `Object.keys` enumerates canonical
  non-negative integer keys in ascending order first, then the remaining
  (string-like) keys in first-insertion order, as the ECMAScript property
  order prescribes.
* Fallible JS operations (dereferencing `null`, `reduce` of an empty array
  with no seed) are embedded with `Except JsErr`, where `JsErr.typeError`
  stands for the thrown `TypeError`.
-/

/-- A JS property key produced by `parseInt`: `none` is the `NaN` key. -/
abbrev JsKey := Option Int

/-- A JS number: `none` is `NaN`, `some q` a finite value idealised as a
rational. -/
abbrev JNum := Option ℚ

/-- Rational addition written through `mkRat` (definitionally evaluable;
`qadd_eq` below identifies it with `+`). -/
def qadd (a b : ℚ) : ℚ :=
  mkRat (a.num * b.den + b.num * a.den) (a.den * b.den)

/-- Rational negation written through `mkRat`. -/
def qneg (a : ℚ) : ℚ :=
  mkRat (-a.num) a.den

/-- Rational division written through `mkRat`. -/
def qdiv (a b : ℚ) : ℚ :=
  mkRat (a.num * b.den * (if b.num < 0 then -1 else 1)) (a.den * b.num.natAbs)

/-- Multiplication by a power of ten, written through `mkRat`. -/
def qscale10 (q : ℚ) (e : Int) : ℚ :=
  if 0 ≤ e then mkRat (q.num * ((10 ^ e.toNat : Nat) : Int)) q.den
  else mkRat q.num (q.den * 10 ^ (-e).toNat)

/-- JS addition: `NaN` absorbs. -/
def jadd (a b : JNum) : JNum :=
  match a, b with
  | some x, some y => some (qadd x y)
  | _, _ => none

/-- JS `>=`: any comparison with `NaN` is false. -/
def jge (a b : JNum) : Bool :=
  match a, b with
  | some x, some y => decide (y ≤ x)
  | _, _ => false

/-- JS division as used in the source: the divisor is a positive count there,
so the division-by-zero case (which in JS would give `Infinity` or `NaN`) is
mapped to `NaN`. -/
def jdiv (a b : JNum) : JNum :=
  match a, b with
  | some x, some y => if y = 0 then none else some (qdiv x y)
  | _, _ => none

/-- Whitespace skipped by JS `parseInt` / `parseFloat`. -/
def jsWhitespace (c : Char) : Bool :=
  c == ' ' || c == '\t' || c == '\n' || c == '\r'

/-- Numeric value of a list of decimal digits. -/
def digitsVal (ds : List Char) : Nat :=
  ds.foldl (fun a c => a * 10 + (c.toNat - '0'.toNat)) 0

/-- Numeric value of a list of hexadecimal digits. -/
def hexVal (ds : List Char) : Nat :=
  ds.foldl (fun a c =>
    a * 16 + (if c.isDigit then c.toNat - '0'.toNat
              else if c == 'a' || c == 'b' || c == 'c' || c == 'd' || c == 'e' || c == 'f'
              then c.toNat - 'a'.toNat + 10
              else c.toNat - 'A'.toNat + 10)) 0

/-- Hexadecimal digit test. -/
def isHexDigit (c : Char) : Bool :=
  c.isDigit || ('a' ≤ c && c ≤ 'f') || ('A' ≤ c && c ≤ 'F')

/-- JS `parseInt` (radix unspecified): skip whitespace, optional sign,
auto-detected `0x` hex prefix, then leading digits; `NaN` (= `none`) if no
digit is found. -/
def jsParseIntChars (cs : List Char) : Option Int :=
  let cs := cs.dropWhile jsWhitespace
  let (neg, cs) :=
    match cs with
    | '-' :: rest => (true, rest)
    | '+' :: rest => (false, rest)
    | _ => (false, cs)
  match cs with
  | '0' :: x :: rest =>
    if x == 'x' || x == 'X' then
      let ds := rest.takeWhile isHexDigit
      if ds.isEmpty then none
      else some (if neg then -(hexVal ds : Int) else (hexVal ds : Int))
    else
      let ds := ('0' :: x :: rest).takeWhile Char.isDigit
      some (if neg then -(digitsVal ds : Int) else (digitsVal ds : Int))
  | _ =>
    let ds := cs.takeWhile Char.isDigit
    if ds.isEmpty then none
    else some (if neg then -(digitsVal ds : Int) else (digitsVal ds : Int))

/-- JS `parseInt` on a string. -/
def jsParseInt (s : String) : JsKey :=
  jsParseIntChars s.toList

/-- JS `parseFloat`: skip whitespace, optional sign, decimal mantissa with
optional fraction and exponent; `NaN` (= `none`) when no digit is found in the
mantissa.  Non-finite literals (`Infinity`) are modelled as `NaN`. -/
def jsParseFloatChars (cs : List Char) : JNum :=
  let cs := cs.dropWhile jsWhitespace
  let (neg, cs) :=
    match cs with
    | '-' :: rest => (true, rest)
    | '+' :: rest => (false, rest)
    | _ => (false, cs)
  let ip := cs.takeWhile Char.isDigit
  let cs1 := cs.dropWhile Char.isDigit
  let (fp, cs2) :=
    match cs1 with
    | '.' :: rest => (rest.takeWhile Char.isDigit, rest.dropWhile Char.isDigit)
    | _ => ([], cs1)
  if ip.isEmpty && fp.isEmpty then none
  else
    -- intPart + fracPart / 10^k, written over a common denominator so that
    -- the kernel can evaluate it
    let mant : ℚ := mkRat ((digitsVal ip * 10 ^ fp.length + digitsVal fp : Nat) : Int) (10 ^ fp.length)
    let ex : Option Int :=
      match cs2 with
      | e :: rest =>
        if e == 'e' || e == 'E' then
          let (eneg, rest2) :=
            match rest with
            | '-' :: r => (true, r)
            | '+' :: r => (false, r)
            | _ => (false, rest)
          let ed := rest2.takeWhile Char.isDigit
          if ed.isEmpty then none
          else some (if eneg then -(digitsVal ed : Int) else (digitsVal ed : Int))
        else none
      | [] => none
    let q : ℚ :=
      match ex with
      | some e => qscale10 mant e
      | none => mant
    some (if neg then qneg q else q)

/-- JS `parseFloat` on a string. -/
def jsParseFloat (s : String) : JNum :=
  jsParseFloatChars s.toList

/-- JS `parseFloat` applied to a property lookup: `parseFloat(undefined)` is
`NaN`. -/
def jsParseFloatV (v : Option String) : JNum :=
  match v with
  | none => none
  | some s => jsParseFloat s

/-- Property lookup on an assignment list: the last assignment to the key
wins; `none` models `undefined`. -/
def jsLookup {α : Type} : List (JsKey × α) → JsKey → Option α
  | [], _ => none
  | (k', v) :: rest, k =>
    match jsLookup rest k with
    | some r => some r
    | none => if k' == k then some v else none

/-- Keys in first-occurrence order, skipping the ones already `seen`. -/
def firstOccurAux (seen : List JsKey) : List JsKey → List JsKey
  | [] => []
  | x :: xs => if seen.contains x then firstOccurAux seen xs
               else x :: firstOccurAux (x :: seen) xs

/-- Keys in first-occurrence order (JS objects keep the insertion position of
a property across re-assignment). -/
def firstOccur (l : List JsKey) : List JsKey :=
  firstOccurAux [] l

/-- Insert into an ascending list (stable insertion sort step). -/
def insertAsc (n : Int) : List Int → List Int
  | [] => [n]
  | m :: ms => if n ≤ m then n :: m :: ms else m :: insertAsc n ms

/-- Ascending insertion sort. -/
def sortAsc (l : List Int) : List Int :=
  l.foldr insertAsc []

/-- `Object.keys` order: canonical non-negative integer keys ascending, then
the remaining keys (negative, `NaN`) in first-insertion order. -/
def jsKeys {α : Type} (l : List (JsKey × α)) : List JsKey :=
  let ks := firstOccur (l.map Prod.fst)
  let nonneg := ks.filterMap (fun k => k.bind (fun n => if 0 ≤ n then some n else none))
  (sortAsc nonneg).map some
    ++ ks.filter (fun k => match k with | some n => decide (n < 0) | none => true)

/-- Key/value pairs of an object in `Object.keys` order. -/
def jsEntries (l : List (JsKey × String)) : List (JsKey × String) :=
  (jsKeys l).filterMap (fun k => (jsLookup l k).map (fun v => (k, v)))

/-- JS `String.prototype.indexOf` for a single character (`-1` if absent). -/
def jsIndexOfChar (cs : List Char) (c : Char) : Int :=
  match cs.findIdx? (fun x => x == c) with
  | some i => (i : Int)
  | none => -1

/-- JS `String.prototype.lastIndexOf` for a single character (`-1` if
absent). -/
def jsLastIndexOfChar (cs : List Char) (c : Char) : Int :=
  match cs.reverse.findIdx? (fun x => x == c) with
  | some i => (cs.length : Int) - 1 - i
  | none => -1

/-- JS `String.prototype.substr (start, length)`: a negative start counts from
the end, the length is clamped to the remaining size, and a non-positive
length gives the empty string. -/
def jsSubstrChars (cs : List Char) (start len : Int) : List Char :=
  let size : Int := cs.length
  let start' := if start < 0 then max (size + start) 0 else start
  let len' := min (max len 0) (size - start')
  if len' ≤ 0 then [] else (cs.drop start'.toNat).take len'.toNat

/-- Does `sep` occur as a prefix of `l`?  Returns the remainder if so. -/
def stripTok : List Char → List Char → Option (List Char)
  | [], l => some l
  | _ :: _, [] => none
  | s :: ss, c :: cs => if s == c then stripTok ss cs else none

/-- JS `String.prototype.split` on a non-empty separator token, written with
explicit fuel (the fuel is at least the input length, so the fallback is
never reached on the actual calls). -/
def splitTokAux (sep : List Char) : Nat → List Char → List Char → List (List Char)
  | _, [], acc => [acc.reverse]
  | 0, cs, acc => [acc.reverse ++ cs]
  | fuel + 1, c :: cs, acc =>
    match stripTok sep (c :: cs) with
    | some rest => acc.reverse :: splitTokAux sep fuel rest []
    | none => splitTokAux sep fuel cs (c :: acc)

/-- JS `split` on a separator string. -/
def jsSplit (cs : List Char) (sep : List Char) : List (List Char) :=
  splitTokAux sep cs.length cs []

/-! ## Data model (`Indicator`, `Report`) -/

/-- One country+indicator row (`class Indicator`).  `values` is the list of
property assignments made to the `values` object, in program order. -/
structure Indicator where
  country : String
  countryCode : String
  name : String
  code : String
  values : List (JsKey × String)
deriving DecidableEq, Repr

/-- A thrown JS error. -/
inductive JsErr where
  | typeError
deriving DecidableEq, Repr

/-- The builder state during `readDataFile`: the `Report` fields plus the
local `gotHeader` flag and the `console.log` diagnostics emitted so far. -/
structure IngestState where
  gotHeader : Bool
  years : List String
  indicators : List Indicator
  diagnostics : List String
deriving DecidableEq, Repr

/-- The whole loaded dataset (`class Report`). -/
structure Report where
  years : List String
  indicators : List Indicator
deriving DecidableEq, Repr

/-- The separator token `'","'` passed to `parseLine` by `readDataFile`. -/
def sepToken : String := "\",\""

/-- `parseLine(line, sep)`: take
`line.substr(line.indexOf(quote) + 1, line.lastIndexOf(quote) - 1)` and split
it on `sep`. -/
def parseLine (line sep : String) : List String :=
  let cs := line.toList
  let sub := jsSubstrChars cs (jsIndexOfChar cs '"' + 1) (jsLastIndexOfChar cs '"' - 1)
  (jsSplit sub sep.toList).map List.asString

/-- `addIndicator`: the `if (indicator)` null-check always passes, the
indicator is appended. -/
def addIndicator (inds : List Indicator) (ind : Indicator) : List Indicator :=
  inds ++ [ind]

/-- Message logged for a data line with too few fields (`console.log` with two
arguments joins them with a space). -/
def invalidLineMsg (input : String) : String :=
  "ignored invalid line : " ++ " " ++ input

/-- The body of the `rl.on("line", ...)` callback of `readDataFile`, acting on
one input line.  `cols` is never `null` and never empty (a JS `split` result
has at least one element), so the first guard reduces to `!gotHeader`;
the dead alternatives are kept to mirror the source. -/
def processLine (st : IngestState) (input : String) : IngestState :=
  let cols := parseLine input sepToken
  if cols.isEmpty || !st.gotHeader then
    match cols with
    | c :: _ =>
      if c == "Country Name" then
        { st with gotHeader := true, years := st.years ++ cols.drop 4 }
      else st
    | [] => st
  else if cols.length < st.years.length + 4 then
    { st with diagnostics := st.diagnostics ++ [invalidLineMsg input] }
  else
    let ind : Indicator :=
      { country := cols.getD 0 ""
        countryCode := cols.getD 1 ""
        name := cols.getD 2 ""
        code := cols.getD 3 ""
        -- `this.years.forEach(year => { values[parseInt(year)] = cols[index++] })`
        -- starting at index 4: positionally pair the parsed years with the
        -- fields from index 4 on (the length guard makes every `cols[index]`
        -- defined, and extra fields are ignored).
        values := (st.years.map jsParseInt).zip (cols.drop 4) }
    { st with indicators := addIndicator st.indicators ind }

/-- `readDataFile` on the file's lines (EOF resolves with the built state; the
`SIGINT` / `SIGTSTP` rejections are external cancellations outside this pure
model). -/
def readDataFile (lines : List String) : IngestState :=
  lines.foldl processLine { gotHeader := false, years := [], indicators := [], diagnostics := [] }

/-- The `Report` resolved by `readDataFile`. -/
def IngestState.toReport (st : IngestState) : Report :=
  { years := st.years, indicators := st.indicators }

/-- The parsed fields of the first line whose first field is
`"Country Name"` — the line that flips `gotHeader` during ingestion. -/
def firstHeader (lines : List String) : Option (List String) :=
  lines.findSome? (fun l =>
    match parseLine l sepToken with
    | c :: rest => if c == "Country Name" then some (c :: rest) else none
    | [] => none)

/-- `sortBy`: in-place stable sort of `indicators` by `name` or `code`
(`localeCompare` is modelled as lexicographic string order); any other field
leaves the report untouched. -/
def Report.sortBy (r : Report) (sortField : String) : Report :=
  if sortField == "name" then
    { r with indicators := r.indicators.mergeSort (fun a b => decide (a.name ≤ b.name)) }
  else if sortField == "code" then
    { r with indicators := r.indicators.mergeSort (fun a b => decide (a.code ≤ b.code)) }
  else r

/-! ## Query engine -/

/-- The years visited by `for (var i = startYear; i <= endYear; i++)`. -/
def rangeList (s e : Int) : List Int :=
  (List.range (e + 1 - s).toNat).map (fun k => s + (k : Int))

/-- One disqualification-or-sum loop of `countryOfHighestAverageBewteenYears`:
walk the years in order; on the first year whose raw value is the empty
string return `none` (the party is disqualified and the partial sum
discarded); otherwise add `parseFloat` of the lookup (a missing year gives
`parseFloat(undefined) = NaN`). -/
def sumLoop (ind : Indicator) : List Int → JNum → Option JNum
  | [], acc => some acc
  | i :: rest, acc =>
    let v := jsLookup ind.values (some i)
    if v == some "" then none
    else sumLoop ind rest (jadd acc (jsParseFloatV v))

/-- The sum of `ind`'s values over `startYear..endYear`, or `none` if the
loop hits an empty-string value. -/
def sumVals (ind : Indicator) (s e : Int) : Option JNum :=
  sumLoop ind (rangeList s e) (some 0)

/-- The `reduce` callback of `countryOfHighestAverageBewteenYears` (the
`!current` guard is dead: array elements are never `null`).  The new
candidate's loop runs first, then the current winner's, then the sums are
compared with `>=`. -/
def step (s e : Int) (previous : Option Indicator) (current : Indicator) : Option Indicator :=
  match previous with
  | none => some current
  | some p =>
    match sumVals current s e with
    | none => some p
    | some currentTotal =>
      match sumVals p s e with
      | none => some current
      | some previousTotal =>
        if jge currentTotal previousTotal then some current else some p

/-- `countryOfHighestAverageBewteenYears` (the source's spelling): filter by
indicator name, reduce with seed `null`, then read `.country` off the result
— a `TypeError` when the filter matched nothing. -/
def Report.countryOfHighestAverageBewteenYears
    (r : Report) (indicatorName : String) (startYear endYear : Int) :
    Except JsErr String :=
  match (r.indicators.filter (fun v => v.name == indicatorName)).foldl
      (step startYear endYear) none with
  | some w => .ok w.country
  | none => .error .typeError

/-- One `averagies[year]` record. -/
structure AvgEntry where
  total : JNum
  count : Nat
  avg : JNum
deriving DecidableEq, Repr

/-- Replace the binding of an existing key (property re-assignment keeps the
insertion position). -/
def assocSet (a : List (JsKey × AvgEntry)) (k : JsKey) (e : AvgEntry) :
    List (JsKey × AvgEntry) :=
  a.map (fun kv => if kv.1 == k then (k, e) else kv)

/-- The `if (!averagies[year]) averagies[year] = {total: 0, count: 0, avg: 0}`
line: create the entry when the key is absent. -/
def ensureYear (a : List (JsKey × AvgEntry)) (k : JsKey) : List (JsKey × AvgEntry) :=
  match jsLookup a k with
  | none => a ++ [(k, { total := some 0, count := 0, avg := some 0 })]
  | some _ => a

/-- The body of the inner `forEach` of `yearOfHighestAmongAllCountries` for
one `(year, value)` pair: create the entry if absent (before the empty
check, so an all-empty year still gets a zeroed entry), skip empty values,
otherwise accumulate `total`, `count` and recompute `avg`. -/
def touchYear (a : List (JsKey × AvgEntry)) (k : JsKey) (v : String) :
    List (JsKey × AvgEntry) :=
  let a := ensureYear a k
  if v == "" then a
  else
    match jsLookup a k with
    | none => a
    | some ent =>
      let total := jadd ent.total (jsParseFloat v)
      let count := ent.count + 1
      let avg := if count ≠ 0 then jdiv total (some (count : ℚ)) else ent.avg
      assocSet a k { total := total, count := count, avg := avg }

/-- The fully accumulated `averagies` object for the matching indicators. -/
def buildAveragies (inds : List Indicator) : List (JsKey × AvgEntry) :=
  inds.foldl (fun a ind => (jsEntries ind.values).foldl (fun a kv => touchYear a kv.1 kv.2) a) []

/-- `averagies[k]` where `k` is known to be a key of the object (the default
is unreachable on the actual calls). -/
def entryOf (a : List (JsKey × AvgEntry)) (k : JsKey) : AvgEntry :=
  (jsLookup a k).getD { total := none, count := 0, avg := none }

/-- `yearOfHighestAmongAllCountries`: accumulate `averagies`, then `reduce`
over `Object.keys(averagies)` with no seed — a `TypeError` when there are no
keys.  The `!previous` / `!current` guards are dead (a key string is never
empty, and `"0"` is truthy). -/
def Report.yearOfHighestAmongAllCountries (r : Report) (indicatorName : String) :
    Except JsErr JsKey :=
  let averagies := buildAveragies (r.indicators.filter (fun v => v.name == indicatorName))
  match jsKeys averagies with
  | [] => .error .typeError
  | k :: ks =>
    .ok (ks.foldl (fun previous current =>
      if jge (entryOf averagies current).avg (entryOf averagies previous).avg
      then current else previous) k)

/-! ## Command-line surface -/

/-- Outcome of the argument check at the top of the IIFE. -/
inductive MainStart where
  | usage (msgs : List String) (exitCode : Nat)
  | run (path : String)
deriving DecidableEq, Repr

/-- First usage line. -/
def usageLine1 : String := "Usage : ts-node index.ts <data file path>"

/-- Second usage line. -/
def usageLine2 : String := "Example : ts-node src/index.ts data.csv"

/-- The IIFE's argument handling: `process.argv` holds the node binary and the
script path before the positional arguments; with fewer than 3 entries the
two usage lines are printed and the process exits with status 1, otherwise
ingestion starts on `process.argv[2]`. -/
def mainStart (argv : List String) : MainStart :=
  if argv.length < 3 then .usage [usageLine1, usageLine2] 1
  else .run (argv.getD 2 "")

deriving instance DecidableEq for Except

/-! ## Concrete inputs used by the witnesses and counterexamples -/

/-- The header line of §8's round-trip property. -/
def headerLine : String :=
  "\"Country Name\",\"Country Code\",\"Indicator Name\",\"Indicator Code\",\"1980\",\"1981\""

/-- A well-formed data line for the header above. -/
def dataLine : String := "\"Aruba\",\"ABW\",\"X\",\"XC\",\"2\",\"4\""

/-- A data line with too few fields. -/
def shortLine : String := "\"Aruba\",\"ABW\""

/-- Country A, indicator `"X"`, values `{1980: "2", 1981: "4"}`. -/
def indA : Indicator :=
  { country := "A", countryCode := "AC", name := "X", code := "XC"
    values := [(some 1980, "2"), (some 1981, "4")] }

/-- Country B, indicator `"X"`, values `{1980: "5", 1981: "1"}`. -/
def indB : Indicator :=
  { country := "B", countryCode := "BC", name := "X", code := "XD"
    values := [(some 1980, "5"), (some 1981, "1")] }

/-- The two-country tie scenario of §8. -/
def rptTie : Report := { years := ["1980", "1981"], indicators := [indA, indB] }

/-- Country A with an empty value for 1980. -/
def indGapA : Indicator :=
  { country := "A", countryCode := "AC", name := "X", code := "XC"
    values := [(some 1980, ""), (some 1981, "3")] }

/-- Country B with an empty value for 1981. -/
def indGapB : Indicator :=
  { country := "B", countryCode := "BC", name := "X", code := "XD"
    values := [(some 1980, "7"), (some 1981, "")] }

/-- Every matching indicator has a gap somewhere in 1980–1981. -/
def rptAllGaps : Report := { years := ["1980", "1981"], indicators := [indGapA, indGapB] }

/-- One gapped candidate before one complete candidate. -/
def rptOneGap : Report := { years := ["1980", "1981"], indicators := [indGapA, indB] }

/-- Country A with a non-numeric value for 1980. -/
def indNaN : Indicator :=
  { country := "A", countryCode := "AC", name := "X", code := "XC"
    values := [(some 1980, "abc"), (some 1981, "5")] }

/-- A report whose 1980 average is `NaN`. -/
def rptNaN : Report := { years := ["1980", "1981"], indicators := [indNaN] }

/-- A report with one indicator named `"Y"` only. -/
def rptNoMatch : Report :=
  { years := ["1980"]
    indicators := [{ country := "A", countryCode := "AC", name := "Y", code := "YC"
                     values := [(some 1980, "1")] }] }

/-- An ingestion state just after the header was read. -/
def stIngest : IngestState :=
  { gotHeader := true, years := ["1980", "1981"], indicators := [], diagnostics := [] }

/-- Candidate completeness over the queried range: no year of
`startYear..endYear` has the empty string as raw value.  (A year missing
from the `values` object is not an empty string: the source compares with
`=== ""`, and `undefined` fails that test.) -/
def noGap (ind : Indicator) (s e : Int) : Prop :=
  ∀ i ∈ rangeList s e, jsLookup ind.values (some i) ≠ some ""

instance (ind : Indicator) (s e : Int) : Decidable (noGap ind s e) :=
  inferInstanceAs (Decidable (∀ i ∈ rangeList s e, jsLookup ind.values (some i) ≠ some ""))

/-! ## Adequacy of the `mkRat` formulations

The arithmetic of the embedding is written through `mkRat` so that the
kernel can evaluate it on concrete inputs; these lemmas identify those
formulations with the standard rational operations. -/

theorem qadd_eq (a b : ℚ) : qadd a b = a + b := by
  rw [qadd, Rat.mkRat_eq_div]
  have ha : (a.den : ℚ) ≠ 0 := by exact_mod_cast a.den_nz
  have hb : (b.den : ℚ) ≠ 0 := by exact_mod_cast b.den_nz
  conv_rhs => rw [← Rat.num_div_den a, ← Rat.num_div_den b]
  push_cast
  field_simp

theorem qneg_eq (a : ℚ) : qneg a = -a := by
  rw [qneg, Rat.mkRat_eq_div]
  conv_rhs => rw [← Rat.num_div_den a]
  push_cast
  ring

theorem qdiv_eq (a b : ℚ) (hb : b ≠ 0) : qdiv a b = a / b := by
  rw [qdiv, Rat.mkRat_eq_div]
  have ha : (a.den : ℚ) ≠ 0 := by exact_mod_cast a.den_nz
  have hbd : (b.den : ℚ) ≠ 0 := by exact_mod_cast b.den_nz
  have hbn : b.num ≠ 0 := Rat.num_ne_zero.mpr hb
  have hbnq : (b.num : ℚ) ≠ 0 := by exact_mod_cast hbn
  conv_rhs => rw [← Rat.num_div_den a, ← Rat.num_div_den b]
  by_cases hneg : b.num < 0
  · rw [if_pos hneg]
    have habs : ((b.num.natAbs : ℚ)) = -(b.num : ℚ) := by
      rw [Int.cast_natAbs]
      exact_mod_cast abs_of_neg hneg
    push_cast
    field_simp
    rw [habs]
    ring
  · rw [if_neg hneg]
    have habs : ((b.num.natAbs : ℚ)) = (b.num : ℚ) := by
      rw [Int.cast_natAbs]
      exact_mod_cast abs_of_nonneg (le_of_not_lt hneg)
    push_cast
    field_simp
    rw [habs]
    exact Or.inl rfl

theorem qscale10_eq (q : ℚ) (e : Int) : qscale10 q e = q * (10 : ℚ) ^ e := by
  have hd : (q.den : ℚ) ≠ 0 := by exact_mod_cast q.den_nz
  rw [qscale10]
  by_cases he : 0 ≤ e
  · rw [if_pos he, Rat.mkRat_eq_div]
    conv_rhs => rw [← Rat.num_div_den q, ← Int.toNat_of_nonneg he]
    push_cast
    rw [zpow_natCast]
    field_simp
  · rw [if_neg he, Rat.mkRat_eq_div]
    have he' : e = -((-e).toNat : Int) := by omega
    conv_rhs => rw [← Rat.num_div_den q, he']
    push_cast
    rw [zpow_neg, zpow_natCast]
    have hp : ((10 : ℚ) ^ (-e).toNat) ≠ 0 := by positivity
    field_simp

/-! ## Helper lemmas about `jge` -/

theorem jge_refl {a : JNum} (h : a.isSome) : jge a a = true := by
  rcases a with _ | q
  · simp at h
  · simp [jge]

theorem jge_trans {a b c : JNum} (hab : jge a b = true) (hbc : jge b c = true) :
    jge a c = true := by
  rcases a with _ | x <;> rcases b with _ | y <;> rcases c with _ | z <;>
    simp_all [jge]
  exact le_trans hbc hab

theorem jge_total {a b : JNum} (ha : a.isSome) (hb : b.isSome) :
    jge a b = true ∨ jge b a = true := by
  rcases a with _ | x
  · simp at ha
  rcases b with _ | y
  · simp at hb
  simp only [jge, decide_eq_true_eq]
  exact le_total y x

/-! ## Helper lemmas about the candidate loop and the reduce step -/

theorem sumLoop_eq_none_iff (ind : Indicator) :
    ∀ (ys : List Int) (acc : JNum),
      sumLoop ind ys acc = none ↔ ∃ i ∈ ys, jsLookup ind.values (some i) = some "" := by
  intro ys
  induction ys with
  | nil => intro acc; simp [sumLoop]
  | cons i rest ih =>
    intro acc
    by_cases h : jsLookup ind.values (some i) = some ""
    · simp [sumLoop, h]
    · have hbeq : (jsLookup ind.values (some i) == some "") = false := by
        simpa using h
      simp [sumLoop, hbeq, ih, h]

theorem sumVals_eq_none_iff (ind : Indicator) (s e : Int) :
    sumVals ind s e = none ↔ ¬ noGap ind s e := by
  rw [sumVals, sumLoop_eq_none_iff, noGap]
  simp

theorem sumVals_isSome_of_noGap {ind : Indicator} {s e : Int} (h : noGap ind s e) :
    ∃ t, sumVals ind s e = some t := by
  rcases hv : sumVals ind s e with _ | t
  · exact absurd ((sumVals_eq_none_iff ind s e).mp hv) (not_not_intro h)
  · exact ⟨t, rfl⟩

theorem step_cand_gap (s e : Int) (p c : Indicator) (h : sumVals c s e = none) :
    step s e (some p) c = some p := by
  simp [step, h]

theorem step_prev_gap (s e : Int) (p c : Indicator) (t : JNum)
    (hc : sumVals c s e = some t) (hp : sumVals p s e = none) :
    step s e (some p) c = some c := by
  simp [step, hc, hp]

theorem step_noGap (s e : Int) (p c : Indicator) (hp : noGap p s e) :
    ∃ w, step s e (some p) c = some w ∧ noGap w s e := by
  rcases hc : sumVals c s e with _ | ct
  · exact ⟨p, step_cand_gap s e p c hc, hp⟩
  · obtain ⟨pt, hpt⟩ := sumVals_isSome_of_noGap hp
    by_cases hcmp : jge ct pt = true
    · have hcg : noGap c s e := by
        by_contra hng
        rw [(sumVals_eq_none_iff c s e).mpr hng] at hc
        exact Option.noConfusion hc
      exact ⟨c, by simp [step, hc, hpt, hcmp], hcg⟩
    · exact ⟨p, by simp [step, hc, hpt, hcmp], hp⟩


theorem step_gains (s e : Int) (p c : Indicator) (hp : ¬ noGap p s e) (hc : noGap c s e) :
    step s e (some p) c = some c := by
  obtain ⟨ct, hct⟩ := sumVals_isSome_of_noGap hc
  exact step_prev_gap s e p c ct hct ((sumVals_eq_none_iff p s e).mpr hp)

theorem foldl_step_noGap (s e : Int) :
    ∀ (l : List Indicator) (acc : Option Indicator),
      ((∃ p, acc = some p ∧ noGap p s e) ∨ ∃ x ∈ l, noGap x s e) →
      ∃ w, l.foldl (step s e) acc = some w ∧ noGap w s e := by
  intro l
  induction l with
  | nil =>
    intro acc h
    rcases h with ⟨p, rfl, hp⟩ | ⟨x, hx, _⟩
    · exact ⟨p, rfl, hp⟩
    · exact absurd hx (List.not_mem_nil x)
  | cons x l ih =>
    intro acc h
    rw [List.foldl_cons]
    rcases h with ⟨p, rfl, hp⟩ | ⟨y, hy, hyg⟩
    · obtain ⟨w, hw, hwg⟩ := step_noGap s e p x hp
      exact ih (step s e (some p) x) (Or.inl ⟨w, hw, hwg⟩)
    · rcases List.mem_cons.mp hy with rfl | hyl
      · -- the head is complete: the new accumulator is complete
        rcases acc with _ | p
        · exact ih (some y) (Or.inl ⟨y, rfl, hyg⟩)
        · by_cases hp : noGap p s e
          · obtain ⟨w, hw, hwg⟩ := step_noGap s e p y hp
            exact ih (step s e (some p) y) (Or.inl ⟨w, hw, hwg⟩)
          · exact ih (step s e (some p) y)
              (Or.inl ⟨y, step_gains s e p y hp hyg, hyg⟩)
      · exact ih (step s e acc x) (Or.inr ⟨y, hyl, hyg⟩)

theorem foldl_step_all_gap (s e : Int) :
    ∀ (l : List Indicator) (p : Indicator),
      (∀ x ∈ l, sumVals x s e = none) →
      l.foldl (step s e) (some p) = some p := by
  intro l
  induction l with
  | nil => intro p _; rfl
  | cons x l ih =>
    intro p h
    rw [List.foldl_cons, step_cand_gap s e p x (h x (List.mem_cons_self x l))]
    exact ih p (fun y hy => h y (List.mem_cons_of_mem x hy))

/-! ## Claims about `countryOfHighestAverageBewteenYears` -/

/-- C1: whenever some indicator matching `indicatorName` has no empty-string
value over `[startYear, endYear]`, the reduce ends on a winner with no
empty-string value in that range, and the query returns that winner's
country — so the returned country is never selected from an indicator that
was disqualified by an empty value.  (Disqualification is checked on the new
candidate first, then on the winner, each short-circuiting the sum; that
mechanism is what `step_cand_gap` / `step_prev_gap` capture and what the
fold lemma rests on.) -/
theorem claim_C1 (r : Report) (nm : String) (s e : Int)
    (h : ∃ ind ∈ r.indicators.filter (fun v => v.name == nm), noGap ind s e) :
    ∃ w, (r.indicators.filter (fun v => v.name == nm)).foldl (step s e) none = some w
      ∧ noGap w s e
      ∧ r.countryOfHighestAverageBewteenYears nm s e = .ok w.country := by
  obtain ⟨w, hw, hwg⟩ :=
    foldl_step_noGap s e (r.indicators.filter (fun v => v.name == nm)) none (Or.inr h)
  exact ⟨w, hw, hwg, by simp [Report.countryOfHighestAverageBewteenYears, hw]⟩

/-- Witness for C1 on a concrete report: country A has an empty 1980 value,
country B is complete, and the query returns a gap-free winner. -/
theorem claim_C1_witness :
    ∃ w, (rptOneGap.indicators.filter (fun v => v.name == "X")).foldl (step 1980 1981) none = some w
      ∧ noGap w 1980 1981
      ∧ rptOneGap.countryOfHighestAverageBewteenYears "X" 1980 1981 = .ok w.country :=
  claim_C1 rptOneGap "X" 1980 1981 ⟨indB, by decide, by decide⟩

/-- C9: when every matching indicator has an empty-string value somewhere in
`[startYear, endYear]`, the first matching indicator becomes the winner
unconditionally and every later candidate is disqualified before it can
replace it, so its country is returned. -/
theorem claim_C9 (r : Report) (nm : String) (s e : Int) (first : Indicator)
    (rest : List Indicator)
    (hm : r.indicators.filter (fun v => v.name == nm) = first :: rest)
    (hall : ∀ ind ∈ r.indicators.filter (fun v => v.name == nm),
        ∃ i ∈ rangeList s e, jsLookup ind.values (some i) = some "") :
    r.countryOfHighestAverageBewteenYears nm s e = .ok first.country := by
  have hrest : ∀ x ∈ rest, sumVals x s e = none := by
    intro x hx
    rw [sumVals, sumLoop_eq_none_iff]
    exact hall x (hm ▸ List.mem_cons_of_mem first hx)
  have hfold : (first :: rest).foldl (step s e) none = some first := by
    rw [List.foldl_cons]
    exact foldl_step_all_gap s e rest first hrest
  simp [Report.countryOfHighestAverageBewteenYears, hm, hfold]

/-- Witness for C9: both matching indicators have a gap; the first one's
country `"A"` is returned. -/
theorem claim_C9_witness :
    rptAllGaps.countryOfHighestAverageBewteenYears "X" 1980 1981 = .ok "A" :=
  claim_C9 rptAllGaps "X" 1980 1981 indGapA [indGapB] (by decide) (by decide)

/-- C7: with no disqualification on either side and equal sums, the new
candidate wins the `>=` tie; concretely, with values
`{1980: "2", 1981: "4"}` and `{1980: "5", 1981: "1"}` (both totals 6) the
query over 1980–1981 returns the second country `"B"`. -/
theorem claim_C7 :
    (∀ (s e : Int) (p c : Indicator) (q : ℚ),
        sumVals c s e = some (some q) → sumVals p s e = some (some q) →
        step s e (some p) c = some c)
    ∧ rptTie.countryOfHighestAverageBewteenYears "X" 1980 1981 = .ok "B" := by
  constructor
  · intro s e p c q hc hp
    simp [step, hc, hp, jge]
  · decide

/-- Witness for C7's tie rule at concrete inputs: both sums are 6 and the
step keeps the new candidate. -/
theorem claim_C7_witness :
    step 1980 1981 (some indA) indB = some indB :=
  claim_C7.left 1980 1981 indA indB 6 (by decide) (by decide)

/-- C3: on an indicator name with zero matches, neither query raises an
explicit `NoMatchingIndicator`-style error: `countryOfHighestAverageBewteenYears`
dereferences the `null` reduce seed and `yearOfHighestAmongAllCountries`
reduces an empty key array with no seed — both crash with a `TypeError`. -/
theorem claim_C3 :
    rptNoMatch.countryOfHighestAverageBewteenYears "X" 1980 1990 = .error .typeError
    ∧ rptNoMatch.yearOfHighestAmongAllCountries "X" = .error .typeError := by
  constructor
  · decide
  · decide

/-- C6: the round-trip on the sample header line: `parseLine` with the
`'","'` token yields the six quoted fields, and ingesting the line yields
`years = ["1980", "1981"]` (the fields from index 4 on). -/
theorem claim_C6 :
    parseLine headerLine sepToken
      = ["Country Name", "Country Code", "Indicator Name", "Indicator Code", "1980", "1981"]
    ∧ (readDataFile [headerLine]).years = ["1980", "1981"] := by
  constructor
  · decide
  · decide

/-! ## Claim about `sortBy` -/

/-- C10: `sortBy` with a field other than `"name"` or `"code"` falls through
the switch and leaves the report untouched. -/
theorem claim_C10 (r : Report) (sortField : String)
    (h1 : sortField ≠ "name") (h2 : sortField ≠ "code") :
    r.sortBy sortField = r := by
  simp [Report.sortBy, h1, h2]

/-- Witness for C10 at a concrete unsorted report and field. -/
theorem claim_C10_witness : rptTie.sortBy "country" = rptTie :=
  claim_C10 rptTie "country" (by decide) (by decide)

/-! ## Claim about the command-line surface -/

/-- C8 (amended): with fewer than one positional argument
(`process.argv.length < 3`) the program prints the two usage lines and exits
with status 1 before reading any file; with one or more positional
arguments it proceeds to read `process.argv[2]`, ignoring any extras. -/
theorem claim_C8 (argv : List String) :
    (argv.length < 3 → mainStart argv = .usage [usageLine1, usageLine2] 1)
    ∧ (3 ≤ argv.length → mainStart argv = .run (argv.getD 2 "")) := by
  constructor
  · intro h
    simp [mainStart, h]
  · intro h
    simp [mainStart, Nat.not_lt.mpr h]

/-- Witness for C8 with no positional argument: the usage branch fires. -/
theorem claim_C8_witness :
    mainStart ["node", "index.ts"] = .usage [usageLine1, usageLine2] 1 :=
  (claim_C8 ["node", "index.ts"]).left (by decide)

/-- Counterexample to C8 as stated: two positional arguments are also a
wrong count, yet the program does not print the usage message — it proceeds
with the first path argument. -/
theorem claim_C8_counterexample :
    (["node", "index.ts", "data.csv", "extra"] : List String).length ≠ 3
    ∧ mainStart ["node", "index.ts", "data.csv", "extra"] = .run "data.csv"
    ∧ ¬ ∃ msgs exitCode,
        mainStart ["node", "index.ts", "data.csv", "extra"] = .usage msgs exitCode := by
  refine ⟨by decide, by decide, ?_⟩
  rintro ⟨msgs, exitCode, h⟩
  simp [mainStart] at h

/-! ## Claim about malformed data lines -/

theorem splitTokAux_ne_nil (sep : List Char) :
    ∀ (fuel : Nat) (cs acc : List Char), splitTokAux sep fuel cs acc ≠ [] := by
  intro fuel
  induction fuel with
  | zero => intro cs acc; cases cs <;> simp [splitTokAux]
  | succ n ih =>
    intro cs acc
    cases cs with
    | nil => simp [splitTokAux]
    | cons c cs' =>
      rcases h : stripTok sep (c :: cs') with _ | rest
      · simpa only [splitTokAux, h] using ih cs' (c :: acc)
      · simp only [splitTokAux, h]
        exact List.cons_ne_nil _ _

theorem parseLine_ne_nil (line sep : String) : parseLine line sep ≠ [] := by
  unfold parseLine jsSplit
  intro h
  exact splitTokAux_ne_nil _ _ _ _ (List.map_eq_nil_iff.mp h)

/-- C5: once the header has been captured, a line whose parsed field count is
below `years.length + 4` only appends the diagnostic message: `gotHeader`,
`years` and `indicators` are untouched, so the line never contributes an
indicator and ingestion continues in the same state. -/
theorem claim_C5 (st : IngestState) (input : String)
    (hg : st.gotHeader = true)
    (hlen : (parseLine input sepToken).length < st.years.length + 4) :
    processLine st input = { st with diagnostics := st.diagnostics ++ [invalidLineMsg input] } := by
  have hempty : (parseLine input sepToken).isEmpty = false := by
    simpa [List.isEmpty_iff] using parseLine_ne_nil input sepToken
  simp [processLine, hempty, hg, hlen]

/-- Witness for C5: a two-field line against a six-column header state is
dropped with the diagnostic. -/
theorem claim_C5_witness :
    processLine stIngest shortLine
      = { stIngest with diagnostics := stIngest.diagnostics ++ [invalidLineMsg shortLine] } :=
  claim_C5 stIngest shortLine rfl (by decide)

/-! ## Claim about the ingestion invariants -/

theorem processLine_post (st : IngestState) (input : String) (hg : st.gotHeader = true) :
    (processLine st input).gotHeader = true
    ∧ (processLine st input).years = st.years
    ∧ ∀ ind ∈ (processLine st input).indicators,
        ind ∈ st.indicators ∨ ind.values.map Prod.fst = st.years.map jsParseInt := by
  have hempty : (parseLine input sepToken).isEmpty = false := by
    simpa [List.isEmpty_iff] using parseLine_ne_nil input sepToken
  by_cases hlen : (parseLine input sepToken).length < st.years.length + 4
  · simp [processLine, hempty, hg, hlen]
    exact fun ind h => Or.inl h
  · simp [processLine, hempty, hg, hlen, addIndicator]
    intro ind hind
    rcases hind with h | h
    · exact Or.inl h
    · right
      rw [h]
      apply List.map_fst_zip
      rw [List.length_map, List.length_drop]
      omega

theorem ingest_post (lines : List String) :
    ∀ (st : IngestState), st.gotHeader = true →
      (lines.foldl processLine st).gotHeader = true
      ∧ (lines.foldl processLine st).years = st.years
      ∧ ∀ ind ∈ (lines.foldl processLine st).indicators,
          ind ∈ st.indicators ∨ ind.values.map Prod.fst = st.years.map jsParseInt := by
  induction lines with
  | nil => intro st hg; exact ⟨hg, rfl, fun ind h => Or.inl h⟩
  | cons l ls ih =>
    intro st hg
    obtain ⟨hg1, hy1, hi1⟩ := processLine_post st l hg
    obtain ⟨hg2, hy2, hi2⟩ := ih (processLine st l) hg1
    rw [List.foldl_cons]
    refine ⟨hg2, hy2.trans hy1, ?_⟩
    intro ind hind
    rcases hi2 ind hind with h | h
    · exact hi1 ind h
    · rw [hy1] at h
      exact Or.inr h

theorem ingest_run (lines : List String) :
    ∀ (st : IngestState), st.gotHeader = false → st.years = [] → st.indicators = [] →
      (∀ hcols, firstHeader lines = some hcols →
        (lines.foldl processLine st).gotHeader = true
        ∧ (lines.foldl processLine st).years = hcols.drop 4
        ∧ ∀ ind ∈ (lines.foldl processLine st).indicators,
            ind.values.map Prod.fst = (hcols.drop 4).map jsParseInt) := by
  induction lines with
  | nil =>
    intro st _ _ _ hcols h
    simp [firstHeader] at h
  | cons l ls ih =>
    intro st hg hy hi hcols hfh
    rcases hcl : parseLine l sepToken with _ | ⟨c, rest⟩
    · exact absurd hcl (parseLine_ne_nil l sepToken)
    by_cases hc : c = "Country Name"
    · -- the header is found on this line
      have hfh' : firstHeader (l :: ls) = some (c :: rest) := by
        simp [firstHeader, hcl, hc]
      have hcols' : hcols = c :: rest := (Option.some_inj.mp (hfh'.symm.trans hfh)).symm
      have hstep : processLine st l =
          { st with gotHeader := true, years := st.years ++ (c :: rest).drop 4 } := by
        simp [processLine, hcl, hg, hc]
      obtain ⟨hg2, hy2, hi2⟩ := ingest_post ls (processLine st l) (by rw [hstep])
      rw [List.foldl_cons]
      have hyears : (processLine st l).years = (c :: rest).drop 4 := by
        rw [hstep]
        simp [hy]
      refine ⟨hg2, ?_, ?_⟩
      · rw [hy2, hyears, hcols']
      · intro ind hind
        rcases hi2 ind hind with h | h
        · rw [hstep] at h
          simp [hi] at h
        · rw [hyears] at h
          rw [hcols']
          exact h
    · -- not yet the header: the line is skipped and the state is unchanged
      have hstep : processLine st l = st := by
        simp [processLine, hcl, hg, hc]
      have hfh' : firstHeader (l :: ls) = firstHeader ls := by
        simp [firstHeader, hcl, hc]
      rw [List.foldl_cons, hstep]
      exact ih st hg hy hi hcols (by rw [← hfh', hfh])

theorem firstOccurAux_of_nodup :
    ∀ (l seen : List JsKey), l.Nodup → (∀ x ∈ l, x ∉ seen) → firstOccurAux seen l = l := by
  intro l
  induction l with
  | nil => intro seen _ _; rfl
  | cons x xs ih =>
    intro seen hnd hdisj
    have hx : seen.contains x = false := by
      rw [← Bool.not_eq_true, List.elem_iff]
      exact hdisj x (List.mem_cons_self x xs)
    rw [firstOccurAux, hx]
    simp only [Bool.false_eq_true, if_false]
    congr 1
    apply ih (x :: seen) (List.Nodup.of_cons hnd)
    intro y hy hmem
    rcases List.mem_cons.mp hmem with rfl | hseen
    · exact (List.nodup_cons.mp hnd).1 hy
    · exact hdisj y (List.mem_cons_of_mem x hy) hseen

theorem firstOccur_of_nodup (l : List JsKey) (h : l.Nodup) : firstOccur l = l :=
  firstOccurAux_of_nodup l [] h (fun x _ => List.not_mem_nil x)

/-- C4: for a well-formed input file — one with a recognised header line of
at least 4 columns whose year labels parse to pairwise distinct keys — the
built `years` has length `header columns - 4`, and every ingested
indicator's `values` object has exactly `years.length` entries, keyed (in
order) by the integers obtained by parsing the year labels. -/
theorem claim_C4 (lines : List String) (hcols : List String)
    (hh : firstHeader lines = some hcols)
    (h4 : 4 ≤ hcols.length)
    (hnd : ((hcols.drop 4).map jsParseInt).Nodup) :
    (readDataFile lines).years.length = hcols.length - 4
    ∧ ∀ ind ∈ (readDataFile lines).indicators,
        firstOccur (ind.values.map Prod.fst) = (readDataFile lines).years.map jsParseInt
        ∧ (firstOccur (ind.values.map Prod.fst)).length = (readDataFile lines).years.length := by
  obtain ⟨hg2, hy2, hi2⟩ :=
    ingest_run lines { gotHeader := false, years := [], indicators := [], diagnostics := [] }
      rfl rfl rfl hcols hh
  have hyd : (readDataFile lines).years = hcols.drop 4 := hy2
  constructor
  · rw [hyd, List.length_drop]
  · intro ind hind
    have hkeys : ind.values.map Prod.fst = (hcols.drop 4).map jsParseInt := hi2 ind hind
    have hfo : firstOccur (ind.values.map Prod.fst) = (hcols.drop 4).map jsParseInt := by
      rw [hkeys]
      exact firstOccur_of_nodup _ hnd
    constructor
    · rw [hfo, hyd]
    · rw [hfo, hyd, List.length_map]

/-- Witness for C4 on a concrete two-line file. -/
theorem claim_C4_witness :
    (readDataFile [headerLine, dataLine]).years.length = 6 - 4
    ∧ ∀ ind ∈ (readDataFile [headerLine, dataLine]).indicators,
        firstOccur (ind.values.map Prod.fst)
          = (readDataFile [headerLine, dataLine]).years.map jsParseInt
        ∧ (firstOccur (ind.values.map Prod.fst)).length
          = (readDataFile [headerLine, dataLine]).years.length :=
  claim_C4 [headerLine, dataLine]
    ["Country Name", "Country Code", "Indicator Name", "Indicator Code", "1980", "1981"]
    (by decide) (by decide) (by decide)

/-! ## Claims about `yearOfHighestAmongAllCountries` -/

theorem jsLookup_isSome_iff {α : Type} :
    ∀ (l : List (JsKey × α)) (k : JsKey), (jsLookup l k).isSome ↔ k ∈ l.map Prod.fst := by
  intro l
  induction l with
  | nil => intro k; simp [jsLookup]
  | cons kv rest ih =>
    intro k
    rcases kv with ⟨k', v⟩
    rcases h : jsLookup rest k with _ | r
    · have hk : k ∉ rest.map Prod.fst := by
        rw [← ih k, h]
        simp
      by_cases hb : k' = k
      · simp [jsLookup, h, hb]
      · have hbeq : (k' == k) = false := by simpa using hb
        simp [jsLookup, h, hbeq, hk, hb]
        exact fun hkk => hb hkk.symm
    · have hk : k ∈ rest.map Prod.fst := by
        rw [← ih k, h]
        simp
      simp [jsLookup, h, hk]

theorem jsLookup_mem {α : Type} :
    ∀ (l : List (JsKey × α)) (k : JsKey) (v : α), jsLookup l k = some v → (k, v) ∈ l := by
  intro l
  induction l with
  | nil => intro k v h; simp [jsLookup] at h
  | cons kv rest ih =>
    intro k v h
    rcases kv with ⟨k', v'⟩
    rcases hr : jsLookup rest k with _ | r
    · rw [jsLookup, hr] at h
      by_cases hb : k' = k
      · simp only [hb, beq_self_eq_true, if_true] at h
        rw [← Option.some_inj.mp h, hb]
        exact List.mem_cons_self _ _
      · have hbeq : (k' == k) = false := by simpa using hb
        simp [hbeq] at h
    · rw [jsLookup, hr] at h
      exact List.mem_cons_of_mem _ (ih k v (hr.trans h))

theorem jsLookup_eq_of_mem_nodup {α : Type} :
    ∀ (l : List (JsKey × α)), (l.map Prod.fst).Nodup →
      ∀ (k : JsKey) (v : α), (k, v) ∈ l → jsLookup l k = some v := by
  intro l
  induction l with
  | nil => intro _ k v h; simp at h
  | cons hd rest ih =>
    intro hnd k v hkv
    rcases hd with ⟨k', v'⟩
    have hnd' : (k' :: rest.map Prod.fst).Nodup := by
      simpa only [List.map_cons] using hnd
    rcases List.mem_cons.mp hkv with heq | hmem
    · obtain ⟨hk, hv⟩ := Prod.mk.injEq k v k' v' ▸ heq
      have hknot : k' ∉ rest.map Prod.fst := (List.nodup_cons.mp hnd').1
      have hr : jsLookup rest k = none := by
        rcases h : jsLookup rest k with _ | r
        · rfl
        · exact absurd ((jsLookup_isSome_iff rest k).mp (by rw [h]; rfl)) (hk ▸ hknot)
      rw [jsLookup, hr]
      simp [hk, hv]
    · rw [jsLookup, ih (List.nodup_cons.mp hnd').2 k v hmem]

theorem mem_firstOccurAux_iff :
    ∀ (l seen : List JsKey) (x : JsKey),
      x ∈ firstOccurAux seen l ↔ (x ∈ l ∧ x ∉ seen) := by
  intro l
  induction l with
  | nil => intro seen x; simp [firstOccurAux]
  | cons y ys ih =>
    intro seen x
    by_cases hy : y ∈ seen
    · have hc : seen.contains y = true := List.elem_iff.mpr hy
      rw [firstOccurAux, hc, if_pos rfl, ih]
      constructor
      · rintro ⟨hx, hns⟩
        exact ⟨List.mem_cons_of_mem y hx, hns⟩
      · rintro ⟨hx, hns⟩
        rcases List.mem_cons.mp hx with rfl | hx'
        · exact absurd hy hns
        · exact ⟨hx', hns⟩
    · have hc : seen.contains y = false := by
        rw [← Bool.not_eq_true, List.elem_iff]
        exact hy
      rw [firstOccurAux, hc]
      simp only [Bool.false_eq_true, if_false, List.mem_cons, ih]
      constructor
      · rintro (rfl | ⟨hx, hns⟩)
        · exact ⟨Or.inl rfl, hy⟩
        · exact ⟨Or.inr hx, fun hs => hns (Or.inr hs)⟩
      · rintro ⟨rfl | hx, hns⟩
        · exact Or.inl rfl
        · by_cases hxy : x = y
          · exact Or.inl hxy
          · exact Or.inr ⟨hx, fun hs => hs.elim hxy hns⟩

theorem mem_firstOccur_iff (l : List JsKey) (x : JsKey) :
    x ∈ firstOccur l ↔ x ∈ l := by
  rw [firstOccur, mem_firstOccurAux_iff]
  simp

theorem mem_insertAsc_iff :
    ∀ (l : List Int) (n x : Int), x ∈ insertAsc n l ↔ x = n ∨ x ∈ l := by
  intro l
  induction l with
  | nil => intro n x; simp [insertAsc]
  | cons m ms ih =>
    intro n x
    by_cases h : n ≤ m
    · simp [insertAsc, h]
    · simp [insertAsc, h, ih]
      tauto

theorem mem_sortAsc_iff (l : List Int) (x : Int) : x ∈ sortAsc l ↔ x ∈ l := by
  induction l with
  | nil => simp [sortAsc]
  | cons m ms ih =>
    rw [sortAsc, List.foldr_cons, mem_insertAsc_iff]
    rw [sortAsc] at ih
    rw [ih]
    simp

theorem mem_jsKeys_iff {α : Type} (l : List (JsKey × α)) (k : JsKey) :
    k ∈ jsKeys l ↔ k ∈ l.map Prod.fst := by
  rw [jsKeys, List.mem_append]
  constructor
  · rintro (h | h)
    · obtain ⟨n, hn, rfl⟩ := List.mem_map.mp h
      rw [mem_sortAsc_iff] at hn
      obtain ⟨k', hk', hbind⟩ := List.mem_filterMap.mp hn
      rcases k' with _ | m
      · simp at hbind
      · have hbind' : (if 0 ≤ m then (some m : Option Int) else none) = some n := hbind
        by_cases hm : 0 ≤ m
        · rw [if_pos hm] at hbind'
          rw [← Option.some_inj.mp hbind']
          exact (mem_firstOccur_iff _ _).mp hk'
        · rw [if_neg hm] at hbind'
          exact absurd hbind' (by simp)
    · exact (mem_firstOccur_iff _ _).mp (List.mem_of_mem_filter h)
  · intro h
    have hk : k ∈ firstOccur (l.map Prod.fst) := (mem_firstOccur_iff _ _).mpr h
    rcases k with _ | n
    · right
      apply List.mem_filter.mpr
      exact ⟨hk, rfl⟩
    · by_cases hn : 0 ≤ n
      · left
        apply List.mem_map.mpr
        refine ⟨n, ?_, rfl⟩
        rw [mem_sortAsc_iff]
        exact List.mem_filterMap.mpr ⟨some n, hk, by simp [Option.bind, hn]⟩
      · right
        apply List.mem_filter.mpr
        refine ⟨hk, by simp; omega⟩


/-- Invariant of the accumulating `averagies` object: the keys are distinct
(the source only inserts a key when it is absent), and — under the numeric
hypothesis of the amended C2 — every entry's `total` and `avg` are real
numbers (not `NaN`). -/
def AvgInv (a : List (JsKey × AvgEntry)) : Prop :=
  (a.map Prod.fst).Nodup ∧ ∀ kv ∈ a, kv.2.total.isSome ∧ kv.2.avg.isSome

theorem assocSet_map_fst (a : List (JsKey × AvgEntry)) (k : JsKey) (e : AvgEntry) :
    (assocSet a k e).map Prod.fst = a.map Prod.fst := by
  unfold assocSet
  rw [List.map_map]
  apply List.map_congr_left
  intro kv _
  by_cases hb : kv.1 = k
  · simp [hb]
  · simp [hb]

theorem mem_assocSet {a : List (JsKey × AvgEntry)} {k : JsKey} {e : AvgEntry} {kv}
    (h : kv ∈ assocSet a k e) : kv ∈ a ∨ kv = (k, e) := by
  obtain ⟨kv', hkv', heq⟩ := List.mem_map.mp h
  by_cases hb : kv'.1 = k
  · right
    rw [← heq]
    simp [hb]
  · left
    have hbeq : (kv'.1 == k) = false := by simpa using hb
    rw [← heq]
    simp [hbeq]
    exact hkv'

theorem ensureYear_inv (a : List (JsKey × AvgEntry)) (k : JsKey) (hinv : AvgInv a) :
    AvgInv (ensureYear a k)
    ∧ (∀ k' ∈ a.map Prod.fst, k' ∈ (ensureYear a k).map Prod.fst)
    ∧ k ∈ (ensureYear a k).map Prod.fst := by
  unfold ensureYear
  rcases hl : jsLookup a k with _ | ent
  · have hknot : k ∉ a.map Prod.fst := by
      rw [← jsLookup_isSome_iff, hl]
      simp
    refine ⟨⟨?_, ?_⟩, ?_, ?_⟩
    · rw [List.map_append]
      refine hinv.1.append (List.nodup_singleton k) ?_
      intro x hx hxk
      rw [List.mem_singleton.mp hxk] at hx
      exact hknot hx
    · intro kv hkv
      rcases List.mem_append.mp hkv with h | h
      · exact hinv.2 kv h
      · rw [List.mem_singleton.mp h]
        exact ⟨rfl, rfl⟩
    · intro k' hk'
      rw [List.map_append, List.mem_append]
      exact Or.inl hk'
    · rw [List.map_append, List.mem_append]
      right
      simp
  · exact ⟨hinv, fun k' hk' => hk', (jsLookup_isSome_iff a k).mp (by rw [hl]; rfl)⟩

theorem touchYear_inv (a : List (JsKey × AvgEntry)) (k : JsKey) (v : String)
    (hinv : AvgInv a) (hv : v ≠ "" → (jsParseFloat v).isSome) :
    AvgInv (touchYear a k v)
    ∧ (∀ k' ∈ a.map Prod.fst, k' ∈ (touchYear a k v).map Prod.fst)
    ∧ k ∈ (touchYear a k v).map Prod.fst := by
  obtain ⟨hinv', hmono', hk'⟩ := ensureYear_inv a k hinv
  by_cases hvx : v = ""
  · have hb : (v == "") = true := by simpa using hvx
    simp only [touchYear, hb, if_pos rfl]
    exact ⟨hinv', hmono', hk'⟩
  · have hb : (v == "") = false := by simpa using hvx
    simp only [touchYear, hb, Bool.false_eq_true, if_false]
    rcases hl2 : jsLookup (ensureYear a k) k with _ | ent
    · exact ⟨hinv', hmono', hk'⟩
    · obtain ⟨htot, _⟩ := hinv'.2 (k, ent) (jsLookup_mem _ k ent hl2)
      obtain ⟨t, ht⟩ := Option.isSome_iff_exists.mp htot
      obtain ⟨p, hp⟩ := Option.isSome_iff_exists.mp (hv hvx)
      have ht' : ent.total = some t := ht
      have hcne : ((ent.count + 1 : Nat) : ℚ) ≠ 0 :=
        Nat.cast_ne_zero.mpr (Nat.succ_ne_zero ent.count)
      refine ⟨⟨?_, ?_⟩, ?_, ?_⟩
      · rw [assocSet_map_fst]
        exact hinv'.1
      · intro kv hkv
        rcases mem_assocSet hkv with h | h
        · exact hinv'.2 kv h
        · rw [h]
          constructor
          · simp [ht', hp, jadd]
          · simp [ht', hp, jadd, jdiv, Nat.succ_ne_zero, hcne]
            positivity
      · intro k2 hk2
        rw [assocSet_map_fst]
        exact hmono' k2 hk2
      · rw [assocSet_map_fst]
        exact hk'

theorem mem_jsEntries {values : List (JsKey × String)} {kv : JsKey × String}
    (h : kv ∈ jsEntries values) : kv ∈ values := by
  obtain ⟨k, hk, hmap⟩ := List.mem_filterMap.mp h
  rcases hl : jsLookup values k with _ | v
  · rw [hl] at hmap
    simp at hmap
  · rw [hl] at hmap
    simp only [Option.map_some'] at hmap
    rw [← Option.some_inj.mp hmap]
    exact jsLookup_mem values k v hl

theorem jsEntries_ne_nil {values : List (JsKey × String)} (h : values ≠ []) :
    jsEntries values ≠ [] := by
  rcases values with _ | ⟨⟨k, v⟩, rest⟩
  · exact absurd rfl h
  have hmem : k ∈ ((k, v) :: rest).map Prod.fst := by simp
  have hkk : k ∈ jsKeys ((k, v) :: rest) := (mem_jsKeys_iff _ _).mpr hmem
  obtain ⟨w, hw⟩ := Option.isSome_iff_exists.mp ((jsLookup_isSome_iff _ _).mpr hmem)
  have : (k, w) ∈ jsEntries ((k, v) :: rest) :=
    List.mem_filterMap.mpr ⟨k, hkk, by rw [hw]; rfl⟩
  exact List.ne_nil_of_mem this

theorem innerFold_inv :
    ∀ (entries : List (JsKey × String)) (a : List (JsKey × AvgEntry)),
      AvgInv a →
      (∀ kv ∈ entries, kv.2 ≠ "" → (jsParseFloat kv.2).isSome) →
      AvgInv (entries.foldl (fun a kv => touchYear a kv.1 kv.2) a)
      ∧ (∀ k' ∈ a.map Prod.fst,
          k' ∈ (entries.foldl (fun a kv => touchYear a kv.1 kv.2) a).map Prod.fst)
      ∧ ∀ kv ∈ entries,
          kv.1 ∈ (entries.foldl (fun a kv => touchYear a kv.1 kv.2) a).map Prod.fst := by
  intro entries
  induction entries with
  | nil =>
    intro a ha _
    exact ⟨ha, fun k' h => h, fun kv h => absurd h (List.not_mem_nil kv)⟩
  | cons kv0 rest ih =>
    intro a ha hnum
    obtain ⟨h1, h2, h3⟩ := touchYear_inv a kv0.1 kv0.2 ha (hnum kv0 (List.mem_cons_self _ _))
    obtain ⟨g1, g2, g3⟩ :=
      ih (touchYear a kv0.1 kv0.2) h1 (fun kv h hv => hnum kv (List.mem_cons_of_mem _ h) hv)
    rw [List.foldl_cons]
    refine ⟨g1, ?_, ?_⟩
    · intro k' hk'
      exact g2 k' (h2 k' hk')
    · intro kv hkv
      rcases List.mem_cons.mp hkv with heq | hm
      · rw [heq]
        exact g2 kv0.1 h3
      · exact g3 kv hm

theorem buildAveragies_inv_aux :
    ∀ (inds : List Indicator) (a : List (JsKey × AvgEntry)),
      AvgInv a →
      (∀ ind ∈ inds, ∀ kv ∈ ind.values, kv.2 ≠ "" → (jsParseFloat kv.2).isSome) →
      AvgInv (inds.foldl
          (fun a ind => (jsEntries ind.values).foldl (fun a kv => touchYear a kv.1 kv.2) a) a)
      ∧ (∀ k' ∈ a.map Prod.fst,
          k' ∈ (inds.foldl
              (fun a ind => (jsEntries ind.values).foldl (fun a kv => touchYear a kv.1 kv.2) a)
              a).map Prod.fst)
      ∧ ∀ ind ∈ inds, ∀ kv ∈ jsEntries ind.values,
          kv.1 ∈ (inds.foldl
              (fun a ind => (jsEntries ind.values).foldl (fun a kv => touchYear a kv.1 kv.2) a)
              a).map Prod.fst := by
  intro inds
  induction inds with
  | nil =>
    intro a ha _
    exact ⟨ha, fun k' h => h, fun ind h => absurd h (List.not_mem_nil ind)⟩
  | cons ind0 rest ih =>
    intro a ha hnum
    have hnum0 : ∀ kv ∈ jsEntries ind0.values, kv.2 ≠ "" → (jsParseFloat kv.2).isSome :=
      fun kv h hv => hnum ind0 (List.mem_cons_self _ _) kv (mem_jsEntries h) hv
    obtain ⟨h1, h2, h3⟩ := innerFold_inv (jsEntries ind0.values) a ha hnum0
    obtain ⟨g1, g2, g3⟩ :=
      ih ((jsEntries ind0.values).foldl (fun a kv => touchYear a kv.1 kv.2) a) h1
        (fun ind h => hnum ind (List.mem_cons_of_mem _ h))
    rw [List.foldl_cons]
    refine ⟨g1, ?_, ?_⟩
    · intro k' hk'
      exact g2 k' (h2 k' hk')
    · intro ind hind kv hkv
      rcases List.mem_cons.mp hind with heq | hm
      · subst heq
        exact g2 kv.1 (h3 kv hkv)
      · exact g3 ind hm kv hkv

theorem buildAveragies_inv (inds : List Indicator)
    (hnum : ∀ ind ∈ inds, ∀ kv ∈ ind.values, kv.2 ≠ "" → (jsParseFloat kv.2).isSome) :
    AvgInv (buildAveragies inds)
    ∧ ∀ ind ∈ inds, ∀ kv ∈ jsEntries ind.values,
        kv.1 ∈ (buildAveragies inds).map Prod.fst := by
  have h := buildAveragies_inv_aux inds [] ⟨List.nodup_nil, fun kv h => absurd h (List.not_mem_nil kv)⟩ hnum
  exact ⟨h.1, h.2.2⟩

theorem foldl_pick_ge (f : JsKey → JNum) :
    ∀ (ks : List JsKey) (k0 : JsKey),
      (∀ x ∈ k0 :: ks, (f x).isSome) →
      ∀ x ∈ k0 :: ks,
        jge (f (ks.foldl (fun p c => if jge (f c) (f p) then c else p) k0)) (f x) = true := by
  intro ks
  induction ks with
  | nil =>
    intro k0 hs x hx
    rcases List.mem_cons.mp hx with heq | hx'
    · rw [List.foldl_nil, heq]
      exact jge_refl (hs k0 (List.mem_cons_self _ _))
    · exact absurd hx' (List.not_mem_nil x)
  | cons k1 ks ih =>
    intro k0 hs x hx
    rw [List.foldl_cons]
    have hsome0 : (f k0).isSome = true := hs k0 (List.mem_cons_self _ _)
    have hsome1 : (f k1).isSome = true :=
      hs k1 (List.mem_cons_of_mem _ (List.mem_cons_self _ _))
    by_cases hcmp : jge (f k1) (f k0) = true
    · rw [if_pos hcmp]
      have hs' : ∀ y ∈ k1 :: ks, (f y).isSome = true := by
        intro y hy
        rcases List.mem_cons.mp hy with heq | hy'
        · rw [heq]; exact hsome1
        · exact hs y (List.mem_cons_of_mem _ (List.mem_cons_of_mem _ hy'))
      have hr := ih k1 hs'
      rcases List.mem_cons.mp hx with heq | hx'
      · rw [heq]
        exact jge_trans (hr k1 (List.mem_cons_self _ _)) hcmp
      · exact hr x hx'
    · rw [if_neg hcmp]
      have hge01 : jge (f k0) (f k1) = true := by
        rcases jge_total hsome1 hsome0 with h | h
        · exact absurd h hcmp
        · exact h
      have hs' : ∀ y ∈ k0 :: ks, (f y).isSome = true := by
        intro y hy
        rcases List.mem_cons.mp hy with heq | hy'
        · rw [heq]; exact hsome0
        · exact hs y (List.mem_cons_of_mem _ (List.mem_cons_of_mem _ hy'))
      have hr := ih k0 hs'
      rcases List.mem_cons.mp hx with heq | hx'
      · rw [heq]
        exact hr k0 (List.mem_cons_self _ _)
      · rcases List.mem_cons.mp hx' with heq1 | hx''
        · rw [heq1]
          exact jge_trans (hr k0 (List.mem_cons_self _ _)) hge01
        · exact hr x (List.mem_cons_of_mem _ hx'')

/-- C2 (amended): provided at least one matching indicator has a non-empty
`values` object (so that `averagies` gets a key at all) and every non-empty
raw value of every matching indicator parses as a number (so that no stored
average is `NaN`), `yearOfHighestAmongAllCountries` returns a year whose
stored average is `>=` the stored average of every year of `averagies`, in
particular of every year with `count > 0`. -/
theorem claim_C2 (r : Report) (nm : String)
    (hne : ∃ ind ∈ r.indicators.filter (fun v => v.name == nm), ind.values ≠ [])
    (hnum : ∀ ind ∈ r.indicators.filter (fun v => v.name == nm),
        ∀ kv ∈ ind.values, kv.2 ≠ "" → (jsParseFloat kv.2).isSome) :
    ∃ k, r.yearOfHighestAmongAllCountries nm = .ok k
      ∧ ∀ kv ∈ buildAveragies (r.indicators.filter (fun v => v.name == nm)),
          0 < kv.2.count →
          jge (entryOf (buildAveragies (r.indicators.filter (fun v => v.name == nm))) k).avg
            kv.2.avg = true := by
  obtain ⟨hinv, hkeysin⟩ := buildAveragies_inv (r.indicators.filter (fun v => v.name == nm)) hnum
  set aver := buildAveragies (r.indicators.filter (fun v => v.name == nm)) with haver
  obtain ⟨ind, hind, hvals⟩ := hne
  obtain ⟨kv0, hkv0⟩ := List.exists_mem_of_ne_nil _ (jsEntries_ne_nil hvals)
  have hk0 : kv0.1 ∈ aver.map Prod.fst := hkeysin ind hind kv0 hkv0
  have hkeys : kv0.1 ∈ jsKeys aver := (mem_jsKeys_iff _ _).mpr hk0
  rcases hks : jsKeys aver with _ | ⟨k0, ks⟩
  · rw [hks] at hkeys
    exact absurd hkeys (List.not_mem_nil _)
  have hres : r.yearOfHighestAmongAllCountries nm
      = .ok (ks.foldl (fun previous current =>
          if jge (entryOf aver current).avg (entryOf aver previous).avg
          then current else previous) k0) := by
    unfold Report.yearOfHighestAmongAllCountries
    rw [← haver]
    simp only [hks]
  have hAll : ∀ x ∈ k0 :: ks, ((fun k => (entryOf aver k).avg) x).isSome = true := by
    intro x hx
    rw [← hks] at hx
    have hxf : x ∈ aver.map Prod.fst := (mem_jsKeys_iff _ _).mp hx
    obtain ⟨ent, hent⟩ := Option.isSome_iff_exists.mp ((jsLookup_isSome_iff _ _).mpr hxf)
    have hEq : entryOf aver x = ent := by
      rw [entryOf, hent]
      rfl
    show ((entryOf aver x).avg).isSome = true
    rw [hEq]
    exact (hinv.2 (x, ent) (jsLookup_mem _ x ent hent)).2
  have hmax := foldl_pick_ge (fun k => (entryOf aver k).avg) ks k0 hAll
  refine ⟨_, hres, ?_⟩
  intro kv hkv _
  have hkf : kv.1 ∈ aver.map Prod.fst := List.mem_map.mpr ⟨kv, hkv, rfl⟩
  have hkj : kv.1 ∈ k0 :: ks := by
    rw [← hks]
    exact (mem_jsKeys_iff _ _).mpr hkf
  have h := hmax kv.1 hkj
  have hkv2 : entryOf aver kv.1 = kv.2 := by
    rw [entryOf, jsLookup_eq_of_mem_nodup aver hinv.1 kv.1 kv.2 hkv]
    rfl
  rw [← hkv2]
  exact h

/-- Witness for the amended C2 at a concrete numeric report: the returned
year's average dominates every accumulated year. -/
theorem claim_C2_witness :
    ∃ k, rptTie.yearOfHighestAmongAllCountries "X" = .ok k
      ∧ ∀ kv ∈ buildAveragies (rptTie.indicators.filter (fun v => v.name == "X")),
          0 < kv.2.count →
          jge (entryOf (buildAveragies (rptTie.indicators.filter (fun v => v.name == "X"))) k).avg
            kv.2.avg = true :=
  claim_C2 rptTie "X" ⟨indA, by decide, by decide⟩ (by decide)

/-- Counterexample to C2 as stated: with the non-numeric value `"abc"` for
1980, the 1980 average is `NaN`; the reduce keeps 1980 (every `>=` against
`NaN` is false), yet year 1981 has `count = 1 > 0` and average 5, and the
returned year's average is not `>=` it. -/
theorem claim_C2_counterexample :
    rptNaN.yearOfHighestAmongAllCountries "X" = .ok (some 1980)
    ∧ (entryOf (buildAveragies (rptNaN.indicators.filter (fun v => v.name == "X")))
        (some 1981)).count = 1
    ∧ jge (entryOf (buildAveragies (rptNaN.indicators.filter (fun v => v.name == "X")))
          (some 1980)).avg
        (entryOf (buildAveragies (rptNaN.indicators.filter (fun v => v.name == "X")))
          (some 1981)).avg = false := by
  refine ⟨by decide, by decide, by decide⟩
